import Mathlib

/-!
Verification of the Cauchy Caterpillar (CCat) streaming FEC codec core.

The development shallowly embeds the code of the repository: `CCatTools.h`
(constants, the Cauchy matrix generator `GetMatrixElement`, the little-endian
POD serialization routines, `AlignedLightVector`) and `CCatCpp.h` (the
`CauchyCaterpillar` wrapper state machine).  Parts of the core that the
repository references but whose sources are not present (the gf256 arithmetic
substrate, the encoder recovery builder, the decoder window and solver,
`ccat_create` validation) are modelled from the specification, and each such
definition is marked `Modelled from the spec:` in its doc comment.

Machine integers are embedded as `Nat` with explicit `% 256` (resp.
`% 2 ^ w`) wherever the C code performs a narrowing cast.
-/

namespace CCat

/-! ### GF(256) arithmetic substrate

Modelled from the spec (section 4.1): gf256.h is not under src/.  The field
GF(256) is realized on byte values 0..255; `add` is XOR; `mul` and `div` are
table-driven using log/exp tables of a fixed primitive polynomial.  We fix
the standard primitive polynomial 0x11D (x^8+x^4+x^3+x^2+1) with generator 2;
the spec allows any standard primitive polynomial.  The two tables are stored
as a single natural number each, eight bits per entry; the theorems
`gf256_exp_zero` and `gf256_exp_step` check them against the generator
recurrence, and `gf256_exp_log` / `gf256_log_exp` check that the log table
inverts the exp table. -/

/-- Modelled from the spec: GF(256) addition is XOR (spec section 4.1). -/
def gf256_add (a b : Nat) : Nat :=
  a ^^^ b

/-- Modelled from the spec: multiply a field element by x (the polynomial
variable) and reduce by the primitive polynomial 0x11D.  Used to state the
correctness of the exp table. -/
def gfXtime (b : Nat) : Nat :=
  if b.testBit 7 then (2 * b) ^^^ 0x11D else 2 * b

/-- Modelled from the spec: the exp table of GF(256) for generator 2 and
polynomial 0x11D, packed eight bits per entry; entry i (for i in 0..254) is
the byte 2^i in GF(256). -/
def gf256_exp_nat : Nat :=
  70160881166704368827218703435136616750530459438269794890424969378298545675077208731798828898087927652446353395360628748027273188182808436399538186061104243134188885576122562338679313492324190829158544377810568631194580132524405266702234305646236648896994794467054525044798919765581988418950285252905306116225263236585714808161311289784028762024137133735135393922581566890382566480334369299400480864790538739986285574563168380416343369614948461817839620668187777978661530364712890858126432457562886306102556561631759900551331094983229723298224611133722330829711659991602983068895685602467964643306841827719562658305

/-- Modelled from the spec: the log table of GF(256) for generator 2 and
polynomial 0x11D, packed eight bits per entry; entry x (for x in 1..255) is
the discrete log of x base 2, and entry 0 is unused (stored as 0). -/
def gf256_log_nat : Nat :=
  22135253156888987530748098150270024343632497605293634117281264061560962248099620766229961468867162294233796152347975563017024165690400661622462404646302566225833645086064538892198543335321514950294300187779610338557442029018619797274438901674641748676613670242915365385819254959901651105240253464034662486586186382979728982817772067067513442677601938078891989292316012868233806586592927239821351197800766822366321181463280924672822998103315976779850880337712374790938628529953751181886374687897611504386983350015558142994211516619836411558782076806704747441947939324473761869443721989389604670425385080942269787340800

/-- Modelled from the spec: read entry `i` of the exp table. -/
def gf256_exp (i : Nat) : Nat :=
  (gf256_exp_nat >>> (8 * i)) % 256

/-- Modelled from the spec: read entry `x` of the log table. -/
def gf256_log (x : Nat) : Nat :=
  (gf256_log_nat >>> (8 * x)) % 256

/-- Modelled from the spec: GF(256) multiplication of bytes `a` and `b`,
table-driven (spec section 4.1): zero if either factor is zero, otherwise
exp of the sum of the logs. -/
def gf256_mul (a b : Nat) : Nat :=
  if a = 0 ∨ b = 0 then 0
  else gf256_exp ((gf256_log a + gf256_log b) % 255)

/-- Modelled from the spec: GF(256) division `a / b`, table-driven: zero if
the numerator is zero, otherwise exp of the difference of the logs (undefined
for `b = 0`; the codec never divides by zero, see the nonzero-divisor
theorem). -/
def gf256_div (a b : Nat) : Nat :=
  if a = 0 then 0
  else gf256_exp ((gf256_log a + 255 - gf256_log b) % 255)

/-! ### Constants (src/CCatTools.h) -/

/-- Max original columns in matrix (`kMatrixColumnCount`, CCatTools.h). -/
def kMatrixColumnCount : Nat := 192

/-- Max recovery rows in matrix (`kMatrixRowCount`, CCatTools.h). -/
def kMatrixRowCount : Nat := 256 - kMatrixColumnCount

/-- Limit on the size of a recovery attempt (`kMaxRecoveryColumns`). -/
def kMaxRecoveryColumns : Nat := 128

/-- Limit on the involved recovery rows (`kMaxRecoveryRows`). -/
def kMaxRecoveryRows : Nat := kMaxRecoveryColumns + 32

/-- Min encoder window size (`kMinEncoderWindowSize`). -/
def kMinEncoderWindowSize : Nat := 1

/-- Max encoder window size (`kMaxEncoderWindowSize`). -/
def kMaxEncoderWindowSize : Nat := kMatrixColumnCount

/-- Max decoder window size (`kDecoderWindowSize`). -/
def kDecoderWindowSize : Nat := 2 * kMatrixColumnCount

/-- Max packet size (`kMaxPacketSize`). -/
def kMaxPacketSize : Nat := 65536

/-- Min window size in msec (`kMinWindowMsec`). -/
def kMinWindowMsec : Nat := 10

/-- Max window size in msec (`kMaxWindowMsec`, CCatTools.h line 108:
`2000 * 1000`). -/
def kMaxWindowMsec : Nat := 2000 * 1000

/-! ### The Cauchy matrix generator (src/CCatTools.h, GetMatrixElement) -/

/-- `GetMatrixElement` from CCatTools.h.  Both arguments are `uint8_t` in the
source; the `% 256` reductions embed the implicit narrowing of
`originalColumn + (uint8_t)kMatrixRowCount`. -/
def GetMatrixElement (recoveryRow originalColumn : Nat) : Nat :=
  let x_i := recoveryRow % 256
  let y_j := (originalColumn + kMatrixRowCount) % 256
  gf256_div y_j (gf256_add x_i y_j)

/-! ### POD serialization (src/CCatTools.h)

Buffers are lists of bytes; `data[i]` is element `i` of the list.  We embed
the well-defined byte-by-byte branch of each routine (the other branch is a
memory-layout type pun that coincides with it on little-endian machines);
`% 256` and `% 65536` embed the `uint8_t` / `uint16_t` narrowing casts. -/

/-- `ReadU16_LE` from CCatTools.h: `((uint16_t)data[1] << 8) | data[0]`. -/
def ReadU16_LE (data : List Nat) : Nat :=
  ((data.getD 1 0) <<< 8) ||| data.getD 0 0

/-- `ReadU24_LE` from CCatTools.h. -/
def ReadU24_LE (data : List Nat) : Nat :=
  ((data.getD 2 0) <<< 16) ||| ((data.getD 1 0) <<< 8) ||| data.getD 0 0

/-- `ReadU32_LE` from CCatTools.h. -/
def ReadU32_LE (data : List Nat) : Nat :=
  ((data.getD 3 0) <<< 24) ||| ((data.getD 2 0) <<< 16) |||
    ((data.getD 1 0) <<< 8) ||| data.getD 0 0

/-- `ReadU64_LE` from CCatTools.h. -/
def ReadU64_LE (data : List Nat) : Nat :=
  ((data.getD 7 0) <<< 56) ||| ((data.getD 6 0) <<< 48) |||
    ((data.getD 5 0) <<< 40) ||| ((data.getD 4 0) <<< 32) |||
    ((data.getD 3 0) <<< 24) ||| ((data.getD 2 0) <<< 16) |||
    ((data.getD 1 0) <<< 8) ||| data.getD 0 0

/-- `WriteU16_LE` from CCatTools.h: `data[0] = (uint8_t)value;
data[1] = (uint8_t)(value >> 8)`. -/
def WriteU16_LE (value : Nat) : List Nat :=
  [value % 256, (value >>> 8) % 256]

/-- `WriteU24_LE` from CCatTools.h: `WriteU16_LE(data, (uint16_t)value);
data[2] = (uint8_t)(value >> 16)`. -/
def WriteU24_LE (value : Nat) : List Nat :=
  WriteU16_LE (value % 65536) ++ [(value >>> 16) % 256]

/-- `WriteU32_LE` from CCatTools.h. -/
def WriteU32_LE (value : Nat) : List Nat :=
  [value % 256, (value >>> 8) % 256, (value >>> 16) % 256, (value >>> 24) % 256]

/-- `WriteU64_LE` from CCatTools.h. -/
def WriteU64_LE (value : Nat) : List Nat :=
  [value % 256, (value >>> 8) % 256, (value >>> 16) % 256, (value >>> 24) % 256,
    (value >>> 32) % 256, (value >>> 40) % 256, (value >>> 48) % 256,
    (value >>> 56) % 256]

/-! ### AlignedLightVector (src/CCatTools.h)

The three data members of the class; the data pointer is embedded as the
address it holds.  `Resize` goes through the allocator (not under src/) and
is not needed by the claims. -/

structure AlignedLightVector where
  DataPtr : Nat
  Size : Nat
  Allocated : Nat

/-- The freshly constructed vector: all members use their C++ default member
initializers (`nullptr`, `0`, `0`). -/
def AlignedLightVector.fresh : AlignedLightVector :=
  { DataPtr := 0, Size := 0, Allocated := 0 }

/-- `Clear` from CCatTools.h: `Size = 0;` and nothing else. -/
def AlignedLightVector.Clear (v : AlignedLightVector) : AlignedLightVector :=
  { v with Size := 0 }

/-- `GetSize` from CCatTools.h. -/
def AlignedLightVector.GetSize (v : AlignedLightVector) : Nat :=
  v.Size

/-- `GetPtr` from CCatTools.h: `DataPtr + index`. -/
def AlignedLightVector.GetPtr (v : AlignedLightVector) (index : Nat := 0) : Nat :=
  v.DataPtr + index

/-! ### The C++ wrapper state machine (src/CCatCpp.h) -/

/-- Modelled from the spec: the result kinds of the C API (ccat.h is not
under src/; section 6 of the spec lists them). -/
inductive CCatResult
  | Success
  | InvalidInput
  | OutOfMemory
  | Disabled
deriving DecidableEq

/-- The observable state of the `CauchyCaterpillar` wrapper class:
the `Error` flag and whether `Codec` holds a live codec. -/
structure CauchyCaterpillar where
  Error : Bool
  CodecCreated : Bool
deriving DecidableEq

/-- `IsError` from CCatCpp.h. -/
def IsError (s : CauchyCaterpillar) : Bool :=
  s.Error

/-- `Initialize` from CCatCpp.h, parameterized by the result of the
underlying `ccat_create` call (the codec itself is outside CCatCpp.h):
on failure it sets `Error = true`; on success it sets `Error = false`. -/
def Initialize (createResult : CCatResult) : CauchyCaterpillar :=
  if createResult = CCatResult.Success then { Error := false, CodecCreated := true }
  else { Error := true, CodecCreated := false }

/-- `OnOriginal` from CCatCpp.h, parameterized by the result of
`ccat_decode_original`. -/
def OnOriginal (s : CauchyCaterpillar) (result : CCatResult) : CauchyCaterpillar :=
  if result = CCatResult.Success then s else { s with Error := true }

/-- `OnRecovery` from CCatCpp.h, parameterized by the result of
`ccat_decode_recovery`. -/
def OnRecovery (s : CauchyCaterpillar) (result : CCatResult) : CauchyCaterpillar :=
  if result = CCatResult.Success then s else { s with Error := true }

/-- `SendOriginal` from CCatCpp.h, parameterized by the result of
`ccat_encode_original`. -/
def SendOriginal (s : CauchyCaterpillar) (result : CCatResult) : CauchyCaterpillar :=
  if result = CCatResult.Success then s else { s with Error := true }

/-- `SendRecovery` from CCatCpp.h, parameterized by the result of
`ccat_encode_recovery`. -/
def SendRecovery (s : CauchyCaterpillar) (result : CCatResult) : CauchyCaterpillar :=
  if result = CCatResult.Success then s else { s with Error := true }

/-- One of the four packet operations of the wrapper, tagged with the result
the underlying C call returns. -/
inductive PacketOp
  | sendOriginal (result : CCatResult)
  | sendRecovery (result : CCatResult)
  | onOriginal (result : CCatResult)
  | onRecovery (result : CCatResult)

/-- Dispatch one packet operation to the wrapper method embedding it. -/
def stepPacket (s : CauchyCaterpillar) : PacketOp → CauchyCaterpillar
  | PacketOp.sendOriginal r => SendOriginal s r
  | PacketOp.sendRecovery r => SendRecovery s r
  | PacketOp.onOriginal r => OnOriginal s r
  | PacketOp.onRecovery r => OnRecovery s r

/-- Run a sequence of packet operations through the wrapper. -/
def runPacketOps (s : CauchyCaterpillar) : List PacketOp → CauchyCaterpillar
  | [] => s
  | op :: rest => runPacketOps (stepPacket s op) rest

/-! ### Encoder recovery construction

Modelled from the spec (sections 3 and 4.3): the encoder sources
(CCatEncoder / CCatCodec.cpp) are not under src/.  A recovery packet with
row `row` covering originals `p_0 .. p_{k-1}` carries, at byte position `i`,
the GF(256) sum over `k` of `M(row, k) * p_k[i]`, each original zero-padded
to the maximum length in the covered set. -/

/-- Byte `i` of payload `p`, zero-padded (spec: each original is padded with
zeros to the recovery length). -/
def byteAt (p : List Nat) (i : Nat) : Nat :=
  p.getD i 0

/-- The maximum payload length over the covered set (the `bytes` field of a
recovery packet). -/
def maxBytes : List (List Nat) → Nat
  | [] => 0
  | p :: rest => max p.length (maxBytes rest)

/-- Modelled from the spec: byte `i` of the GF(256) linear combination
`sum(k) M(row, col + k) * original_k`, the originals occupying matrix
columns `col, col + 1, ...`. -/
def recoveryAccum (row : Nat) : List (List Nat) → Nat → Nat → Nat
  | [], _, _ => 0
  | p :: rest, col, i =>
    gf256_mul (GetMatrixElement row col) (byteAt p i) ^^^
      recoveryAccum row rest (col + 1) i

/-- Modelled from the spec: byte `i` of the recovery payload for `row`,
columns starting at 0. -/
def recoveryByte (row : Nat) (originals : List (List Nat)) (i : Nat) : Nat :=
  recoveryAccum row originals 0 i

/-- The structured recovery packet of the wire interface (spec section 6). -/
structure RecoveryPacket where
  SequenceStart : Nat
  Count : Nat
  RecoveryRow : Nat
  Bytes : Nat
  Payload : List Nat

/-- Modelled from the spec: `build_recovery` emits one recovery packet
covering the listed originals: `count` = occupancy, `row` = the encoder row
counter (already reduced mod 64), `bytes` = maximum covered length, and the
payload bytes are the Cauchy combination `recoveryByte`. -/
def buildRecovery (row seqStart : Nat) (originals : List (List Nat)) :
    RecoveryPacket :=
  { SequenceStart := seqStart
    Count := originals.length
    RecoveryRow := row
    Bytes := maxBytes originals
    Payload := (List.range (maxBytes originals)).map (recoveryByte row originals) }

/-- Following the words of the spec (First-row XOR property, section 8
invariant 2): byte `i` of the plain XOR of the zero-padded covered
originals. -/
def xorByte : List (List Nat) → Nat → Nat
  | [], _ => 0
  | p :: rest, i => byteAt p i ^^^ xorByte rest i

/-- Following the words of the spec: the payload claimed by the First-row
XOR property, one `xorByte` per byte position of the covered set. -/
def xorPayload (originals : List (List Nat)) : List Nat :=
  (List.range (maxBytes originals)).map (xorByte originals)

/-! ### Decoder window and deduplication

Modelled from the spec (section 4.4): the decoder sources are not under
src/.  Slots are keyed by absolute sequence number; the ring indexing by
`sequence mod 384` together with eviction is embedded by clearing every slot
that falls out of the active window (its buffer is released and the ring
position is reused). -/

/-- The decoder slot variants (spec section 3, Window slot, decoder side). -/
inductive SlotState
  | empty
  | missing
  | gotOriginal
  | recovered
deriving DecidableEq

/-- The decoder receive window: the highest sequence observed and the state
of every slot. -/
structure DecoderState where
  maxSeen : Nat
  slots : Nat → SlotState

/-- The decoder before any packet arrived: nothing seen, every slot Empty. -/
def freshDecoder : DecoderState :=
  { maxSeen := 0, slots := fun _ => SlotState.empty }

/-- Modelled from the spec: when a new highest sequence arrives, advance
`maxSeen`, mark all intervening previously-unseen slots Missing, and evict
(clear) any slot falling out of the new window. -/
def advanceWindow (s : DecoderState) (seq : Nat) : DecoderState :=
  if s.maxSeen < seq then
    { maxSeen := seq
      slots := fun t =>
        if t + kDecoderWindowSize ≤ seq then SlotState.empty
        else if s.maxSeen < t ∧ t < seq ∧ s.slots t = SlotState.empty then
          SlotState.missing
        else s.slots t }
  else s

/-- Modelled from the spec: `accept_original`.  Out-of-window sequences are
dropped; otherwise the window advances if needed and the original is
recorded when its slot is Empty or Missing, and dropped as a duplicate when
the slot is already GotOriginal or Recovered.  Returns the accepted sequence
when the original was accepted. -/
def acceptOriginal (s : DecoderState) (seq : Nat) : DecoderState × Option Nat :=
  if seq + kDecoderWindowSize ≤ s.maxSeen then (s, none)
  else
    let s1 := advanceWindow s seq
    if s1.slots seq = SlotState.empty ∨ s1.slots seq = SlotState.missing then
      ({ s1 with slots := fun t => if t = seq then SlotState.gotOriginal else s1.slots t },
        some seq)
    else (s1, none)

/-- Modelled from the spec: the solver delivers a recovered original via the
OnRecovered callback only for an in-window sequence whose slot is Missing
(transition Missing → Recovered); any other slot state yields nothing. -/
def solveRecover (s : DecoderState) (seq : Nat) : DecoderState × Option Nat :=
  if seq + kDecoderWindowSize ≤ s.maxSeen then (s, none)
  else if s.slots seq = SlotState.missing then
    ({ s with slots := fun t => if t = seq then SlotState.recovered else s.slots t },
      some seq)
  else (s, none)

/-- The externally visible decoder events: an original arriving from the
wire, or the solver reconstructing a sequence. -/
inductive DecoderEvent
  | original (seq : Nat)
  | solved (seq : Nat)

/-- A delivery to the application: an accepted original or an OnRecovered
callback invocation. -/
inductive Delivery
  | accepted (seq : Nat)
  | onRecovered (seq : Nat)
deriving DecidableEq

/-- The sequence a delivery concerns. -/
def deliverySeq : Delivery → Nat
  | Delivery.accepted q => q
  | Delivery.onRecovered q => q

/-- One decoder step: dispatch an event and record its delivery, if any. -/
def decoderStep (s : DecoderState) : DecoderEvent → DecoderState × Option Delivery
  | DecoderEvent.original seq =>
    let r := acceptOriginal s seq
    (r.1, r.2.map Delivery.accepted)
  | DecoderEvent.solved seq =>
    let r := solveRecover s seq
    (r.1, r.2.map Delivery.onRecovered)

/-- Run the decoder over a list of events, collecting all deliveries. -/
def decoderRun (s : DecoderState) : List DecoderEvent → DecoderState × List Delivery
  | [] => (s, [])
  | e :: rest =>
    let r := decoderStep s e
    let r2 := decoderRun r.1 rest
    (r2.1, r.2.toList ++ r2.2)

/-- How many deliveries in `outs` concern sequence `seq`. -/
def deliveredCount (outs : List Delivery) (seq : Nat) : Nat :=
  (outs.filter (fun d => deliverySeq d = seq)).length

/-- A sequence that can no longer be delivered: its slot already holds the
original or a reconstruction, or the sequence lies below the active
window. -/
def slotDone (s : DecoderState) (seq : Nat) : Prop :=
  s.slots seq = SlotState.gotOriginal ∨ s.slots seq = SlotState.recovered ∨
    seq + kDecoderWindowSize ≤ s.maxSeen

/-! ### The solver size guard

Modelled from the spec (section 4.5, Solvability heuristic and bound): the
solver sources are not under src/.  A recovery attempt inspects the number
of in-window unknowns and of buffered recoveries; when either exceeds the
compiled-in bound of CCatTools.h it defers, leaving the decoder state
untouched; otherwise it runs the elimination pass, which is abstracted here
as a parameter. -/

/-- The solver-facing state: how many unknown columns are present, how many
recoveries are buffered, and what was delivered so far. -/
structure SolverState where
  unknowns : Nat
  recoveries : Nat
  delivered : List Nat
deriving DecidableEq

/-- Modelled from the spec: a recovery attempt defers (state unchanged)
whenever more than `kMaxRecoveryColumns` unknowns or more than
`kMaxRecoveryRows` recoveries are present, and otherwise runs the
elimination pass `eliminate`. -/
def recoveryAttempt (eliminate : SolverState → SolverState) (s : SolverState) :
    SolverState :=
  if kMaxRecoveryColumns < s.unknowns ∨ kMaxRecoveryRows < s.recoveries then s
  else eliminate s

/-! ### Creation-time validation

Modelled from the spec (section 6, Configuration): ccat_create is not under
src/; it validates the settings against the bounds of CCatTools.h. -/

/-- The creation-time settings (callback and context omitted: they do not
participate in validation). -/
structure CCatSettings where
  WindowMsec : Nat
  WindowPackets : Nat

/-- Modelled from the spec: `ccat_create` accepts exactly the settings whose
fields lie within the compiled-in bounds of CCatTools.h. -/
def createAccepts (st : CCatSettings) : Bool :=
  decide (kMinWindowMsec ≤ st.WindowMsec) &&
    decide (st.WindowMsec ≤ kMaxWindowMsec) &&
    decide (kMinEncoderWindowSize ≤ st.WindowPackets) &&
    decide (st.WindowPackets ≤ kMaxEncoderWindowSize)

/-- Modelled from the spec: at runtime an original stays in the encoder
window only while both limits allow it: its age must not exceed
`WindowMsec` and its packet distance from the newest original must stay
below `WindowPackets`; the effective bound is the stricter of the two. -/
def inEffectiveWindow (st : CCatSettings) (ageMsec dist : Nat) : Bool :=
  decide (ageMsec ≤ st.WindowMsec) && decide (dist < st.WindowPackets)

/-! ### The Cauchy coefficient matrix over a field

`GetMatrixElement` computes `y_j / (x_i + y_j)` in GF(256).  For the
recoverability argument the formula is stated over an arbitrary field (of
which GF(256) is an instance); the rows `x` are the distinct recovery row
values and the columns `y` the distinct values `col + 64`. -/

/-- The coefficient matrix of the source formula (CCatTools.h lines
359..369) over a field `F`: entry `(i, j)` is `y j / (x i + y j)`. -/
def cauchyMatrix {F : Type _} [Field F] {L : Nat} (x y : Fin L → F) :
    Matrix (Fin L) (Fin L) F :=
  Matrix.of fun i j => y j / (x i + y j)

/-! ## Theorems -/

/-! ### GF(256) table facts -/

set_option maxRecDepth 4000

/-- Entry 0 of the exp table is the field one. -/
theorem gf256_exp_zero : gf256_exp 0 = 1 := rfl

/-- The exp table follows the generator recurrence: each entry is the
previous one multiplied by x and reduced by the primitive polynomial. -/
theorem gf256_exp_step : ∀ i < 254, gf256_exp (i + 1) = gfXtime (gf256_exp i) := by
  decide

/-- No entry of the exp table is zero (powers of the generator are units). -/
theorem gf256_exp_ne_zero : ∀ i < 255, gf256_exp i ≠ 0 := by
  decide

/-- Every entry of the exp table is a byte. -/
theorem gf256_exp_lt : ∀ i < 255, gf256_exp i < 256 := by
  decide

/-- The log of a nonzero byte is an exponent below 255. -/
theorem gf256_log_lt : ∀ x < 256, x ≠ 0 → gf256_log x < 255 := by
  decide

/-- The exp table inverts the log table on nonzero bytes. -/
theorem gf256_exp_log : ∀ x < 256, x ≠ 0 → gf256_exp (gf256_log x) = x := by
  decide

/-- The log table inverts the exp table on exponents below 255. -/
theorem gf256_log_exp : ∀ i < 255, gf256_log (gf256_exp i) = i := by
  decide

/-- Dividing a nonzero element of GF(256) by itself yields one. -/
theorem gf256_div_self (a : Nat) (ha : a ≠ 0) : gf256_div a a = 1 := by
  unfold gf256_div
  rw [if_neg ha]
  have h : gf256_log a + 255 - gf256_log a = 255 := by omega
  rw [h]
  rfl

/-- A GF(256) quotient with nonzero numerator is nonzero: the division
routine returns an entry of the exp table, and no such entry is zero. -/
theorem gf256_div_ne_zero (a b : Nat) (ha : a ≠ 0) : gf256_div a b ≠ 0 := by
  unfold gf256_div
  rw [if_neg ha]
  exact gf256_exp_ne_zero _ (Nat.mod_lt _ (by norm_num))

/-- Multiplying a byte by the field one is the identity (the spec notes that
`muladd_mem` with coefficient one reduces to a plain XOR). -/
theorem gf256_mul_one (b : Nat) (hb : b < 256) : gf256_mul 1 b = b := by
  unfold gf256_mul
  by_cases h0 : b = 0
  · simp [h0]
  · rw [if_neg (by simp [h0])]
    have hlog1 : gf256_log 1 = 0 := rfl
    rw [hlog1, Nat.zero_add, Nat.mod_eq_of_lt (gf256_log_lt b hb h0)]
    exact gf256_exp_log b hb h0

/-! ### The Cauchy matrix generator -/

/-- On its full domain (`recoveryRow < 64`, `originalColumn < 192`) the
generator computes exactly `y / (row XOR y)` with `y = col + 64`: the
`uint8_t` narrowing casts are the identity there. -/
theorem GetMatrixElement_eq (row col : Nat) (hr : row < kMatrixRowCount)
    (hc : col < kMatrixColumnCount) :
    GetMatrixElement row col = gf256_div (col + 64) (row ^^^ (col + 64)) := by
  have hr64 : row < 64 := by
    simpa [kMatrixRowCount, kMatrixColumnCount] using hr
  have hc192 : col < 192 := by
    simpa [kMatrixColumnCount] using hc
  unfold GetMatrixElement gf256_add
  norm_num [kMatrixRowCount, kMatrixColumnCount]
  rw [Nat.mod_eq_of_lt (show row < 256 by omega),
    Nat.mod_eq_of_lt (show col + 64 < 256 by omega)]

/-- The first matrix row is all ones: with `row = 0` the generator divides
`y` by `0 XOR y = y`, and `y = col + 64` is nonzero. -/
theorem GetMatrixElement_first_row (col : Nat) (hc : col < kMatrixColumnCount) :
    GetMatrixElement 0 col = 1 := by
  rw [GetMatrixElement_eq 0 col (by norm_num [kMatrixRowCount, kMatrixColumnCount]) hc,
    Nat.zero_xor]
  exact gf256_div_self _ (by omega)

/-- Zero-padded bytes of an all-byte payload are bytes. -/
theorem byteAt_lt (p : List Nat) (hp : ∀ b ∈ p, b < 256) (i : Nat) :
    byteAt p i < 256 := by
  induction p generalizing i with
  | nil => simp [byteAt]
  | cons x xs ih =>
    cases i with
    | zero => simpa [byteAt] using hp x (by simp)
    | succ n =>
      have := ih (fun b hb => hp b (by simp [hb])) n
      simpa [byteAt] using this

/-- With row 0, the Cauchy combination degenerates to the plain XOR of the
zero-padded originals, one byte position at a time. -/
theorem recoveryAccum_xor (l : List (List Nat)) :
    ∀ c i, c + l.length ≤ kMatrixColumnCount →
      (∀ p ∈ l, ∀ b ∈ p, b < 256) →
      recoveryAccum 0 l c i = xorByte l i := by
  induction l with
  | nil => intro c i _ _; rfl
  | cons p rest ih =>
    intro c i hlen hb
    have hc : c < kMatrixColumnCount := by
      simp only [List.length_cons] at hlen
      omega
    simp only [recoveryAccum, xorByte]
    rw [GetMatrixElement_first_row c hc,
      gf256_mul_one _ (byteAt_lt p (hb p (by simp)) i),
      ih (c + 1) i (by simp only [List.length_cons] at hlen; omega)
        (fun q hq => hb q (by simp [hq]))]

/-- C1: every first-row matrix element is one, and consequently the payload
of a recovery built with row 0 over at most 192 byte-valued originals is the
byte-wise XOR of the zero-padded covered originals. -/
theorem first_row_xor :
    (∀ col < kMatrixColumnCount, GetMatrixElement 0 col = 1) ∧
    ∀ (seqStart : Nat) (originals : List (List Nat)),
      originals.length ≤ kMatrixColumnCount →
      (∀ p ∈ originals, ∀ b ∈ p, b < 256) →
      (buildRecovery 0 seqStart originals).Payload = xorPayload originals := by
  constructor
  · exact fun col hc => GetMatrixElement_first_row col hc
  · intro seqStart originals hlen hb
    have hfun : recoveryByte 0 originals = xorByte originals := by
      funext i
      exact recoveryAccum_xor originals 0 i (by omega) hb
    show (List.range (maxBytes originals)).map (recoveryByte 0 originals) = _
    rw [hfun]
    rfl

/-- Witness for C1 at the three originals of spec scenario S1. -/
theorem first_row_xor_witness :
    (buildRecovery 0 7 [[1], [2, 2], [3, 3, 3]]).Payload =
      xorPayload [[1], [2, 2], [3, 3, 3]] :=
  first_row_xor.2 7 [[1], [2, 2], [3, 3, 3]] (by decide) (by decide)

/-- C2: on the wire domain the coefficient generator returns exactly
`y / (row XOR y)` with `y = col + 64`, and the row index a recovery packet
transmits equals the literal row argument used for its coefficients. -/
theorem matrix_element_formula :
    (∀ row col, row < kMatrixRowCount → col < kMatrixColumnCount →
      GetMatrixElement row col = gf256_div (col + 64) (row ^^^ (col + 64))) ∧
    ∀ row seqStart originals,
      (buildRecovery row seqStart originals).RecoveryRow = row :=
  ⟨fun row col hr hc => GetMatrixElement_eq row col hr hc,
    fun _ _ _ => rfl⟩

/-- Witness for C2 at row 1, column 2. -/
theorem matrix_element_formula_witness :
    GetMatrixElement 1 2 = gf256_div (2 + 64) (1 ^^^ (2 + 64)) ∧
      (buildRecovery 1 5 [[7]]).RecoveryRow = 1 :=
  ⟨matrix_element_formula.1 1 2 (by decide) (by decide),
    matrix_element_formula.2 1 5 [[7]]⟩

/-- C8: on the wire domain the divisor computed inside `GetMatrixElement`
is nonzero (so the GF(256) division never sees a zero divisor), and the
returned coefficient is nonzero. -/
theorem matrix_element_nonzero :
    ∀ row col, row < kMatrixRowCount → col < kMatrixColumnCount →
      gf256_add (row % 256) ((col + kMatrixRowCount) % 256) ≠ 0 ∧
        GetMatrixElement row col ≠ 0 := by
  intro row col hr hc
  have hr64 : row < 64 := by
    simpa [kMatrixRowCount, kMatrixColumnCount] using hr
  have hc192 : col < 192 := by
    simpa [kMatrixColumnCount] using hc
  constructor
  · have hmodr : row % 256 = row := Nat.mod_eq_of_lt (by omega)
    have hmody : (col + kMatrixRowCount) % 256 = col + 64 := by
      norm_num [kMatrixRowCount, kMatrixColumnCount]
      omega
    rw [hmodr, hmody]
    unfold gf256_add
    intro h
    have := Nat.xor_eq_zero.mp h
    omega
  · rw [GetMatrixElement_eq row col hr hc]
    exact gf256_div_ne_zero _ _ (by omega)

/-- Witness for C8 at row 1, column 0. -/
theorem matrix_element_nonzero_witness :
    gf256_add (1 % 256) ((0 + kMatrixRowCount) % 256) ≠ 0 ∧
      GetMatrixElement 1 0 ≠ 0 :=
  matrix_element_nonzero 1 0 (by decide) (by decide)

/-! ### AlignedLightVector -/

/-- C10: `Clear` only zeroes the logical size: afterwards `GetSize` is 0
while the data pointer (hence every `GetPtr` result) and the allocated
capacity are unchanged; a freshly constructed vector has size 0. -/
theorem aligned_vector_clear :
    (∀ v : AlignedLightVector,
      v.Clear.GetSize = 0 ∧ v.Clear.DataPtr = v.DataPtr ∧
        v.Clear.Allocated = v.Allocated ∧ ∀ i, v.Clear.GetPtr i = v.GetPtr i) ∧
    AlignedLightVector.fresh.GetSize = 0 :=
  ⟨fun _ => ⟨rfl, rfl, rfl, fun _ => rfl⟩, rfl⟩

/-! ### The wrapper error latch -/

/-- The `Error` flag survives any sequence of packet operations once set. -/
theorem runPacketOps_error (ops : List PacketOp) :
    ∀ s : CauchyCaterpillar, IsError s = true → IsError (runPacketOps s ops) = true := by
  induction ops with
  | nil => exact fun s h => h
  | cons op rest ih =>
    intro s h
    apply ih
    cases op with
    | sendOriginal r =>
      show IsError (SendOriginal s r) = true
      unfold SendOriginal IsError
      split
      · exact h
      · rfl
    | sendRecovery r =>
      show IsError (SendRecovery s r) = true
      unfold SendRecovery IsError
      split
      · exact h
      · rfl
    | onOriginal r =>
      show IsError (OnOriginal s r) = true
      unfold OnOriginal IsError
      split
      · exact h
      · rfl
    | onRecovery r =>
      show IsError (OnRecovery s r) = true
      unfold OnRecovery IsError
      split
      · exact h
      · rfl

/-- C9: each of the four packet operations leaves `Error` set exactly when
it was set before or the underlying call failed (so a failure latches the
flag and no packet operation clears it); once set, `IsError` stays true over
any further packet operations; and `Initialize` alone resets the flag,
to false exactly when `ccat_create` succeeds. -/
theorem wrapper_error_latch :
    (∀ (s : CauchyCaterpillar) (r : CCatResult),
      IsError (SendOriginal s r) = (IsError s || decide (r ≠ CCatResult.Success)) ∧
        IsError (SendRecovery s r) = (IsError s || decide (r ≠ CCatResult.Success)) ∧
        IsError (OnOriginal s r) = (IsError s || decide (r ≠ CCatResult.Success)) ∧
        IsError (OnRecovery s r) = (IsError s || decide (r ≠ CCatResult.Success))) ∧
    (∀ (s : CauchyCaterpillar) (ops : List PacketOp),
      IsError s = true → IsError (runPacketOps s ops) = true) ∧
    ∀ r : CCatResult, IsError ( Initialize r) = decide (r ≠ CCatResult.Success) := by
  refine ⟨fun s r => ?_, fun s ops h => runPacketOps_error ops s h, fun r => ?_⟩
  · unfold IsError SendOriginal SendRecovery OnOriginal OnRecovery
    rcases r <;> rcases s with ⟨e, c⟩ <;> rcases e <;> simp
  · unfold IsError Initialize
    rcases r <;> simp

/-- Witness for C9: an error state stays an error across a successful
packet operation. -/
theorem wrapper_error_latch_witness :
    IsError (runPacketOps ⟨true, true⟩ [PacketOp.onOriginal CCatResult.Success]) = true :=
  wrapper_error_latch.2.1 ⟨true, true⟩ [PacketOp.onOriginal CCatResult.Success] rfl

/-! ### The solver size guard -/

/-- C6: the compiled-in bounds are 128 unknown columns and 160 buffered
recoveries, and a recovery attempt faced with more unknowns or more
recoveries than that defers, leaving the solver state exactly as it was
(nothing consumed, nothing delivered). -/
theorem recovery_attempt_bounds :
    kMaxRecoveryColumns = 128 ∧ kMaxRecoveryRows = 160 ∧
    ∀ (eliminate : SolverState → SolverState) (s : SolverState),
      kMaxRecoveryColumns < s.unknowns ∨ kMaxRecoveryRows < s.recoveries →
      recoveryAttempt eliminate s = s := by
  refine ⟨rfl, rfl, fun eliminate s h => ?_⟩
  unfold recoveryAttempt
  rw [if_pos h]

/-- Witness for C6: 129 unknowns defer the attempt even under an
elimination pass that would otherwise wipe the state. -/
theorem recovery_attempt_bounds_witness :
    recoveryAttempt (fun _ => ⟨0, 0, []⟩) ⟨129, 0, [5]⟩ = ⟨129, 0, [5]⟩ :=
  recovery_attempt_bounds.2.2 (fun _ => ⟨0, 0, []⟩) ⟨129, 0, [5]⟩ (Or.inl (by decide))

/-! ### Creation-time validation -/

/-- C5 fails on the code: the source bound is `kMaxWindowMsec = 2000 * 1000`
(two million, CCatTools.h line 108), not 2·10⁹, so a configuration with
`WindowMsec = 2·10⁹` inside the claimed range is rejected. -/
theorem creation_bounds_counterexample :
    (10 ≤ 2000000000 ∧ 2000000000 ≤ 2000000000 ∧ 1 ≤ 192 ∧ 192 ≤ 192) ∧
      createAccepts ⟨2000000000, 192⟩ = false := by
  refine ⟨by norm_num, ?_⟩
  decide

/-- C5 (amended): creation accepts exactly the configurations with
`WindowMsec ∈ [10, 2·10⁶]` and `WindowPackets ∈ [1, 192]`, and the
effective runtime window bound is the stricter of the `WindowMsec` and
`WindowPackets` limits. -/
theorem creation_bounds :
    ∀ st : CCatSettings,
      (createAccepts st = true ↔
        (10 ≤ st.WindowMsec ∧ st.WindowMsec ≤ 2000000 ∧
          1 ≤ st.WindowPackets ∧ st.WindowPackets ≤ 192)) ∧
      ∀ ageMsec dist,
        inEffectiveWindow st ageMsec dist = true ↔
          (ageMsec ≤ st.WindowMsec ∧ dist < st.WindowPackets) := by
  intro st
  constructor
  · unfold createAccepts kMinWindowMsec kMaxWindowMsec kMinEncoderWindowSize
      kMaxEncoderWindowSize kMatrixColumnCount
    simp [and_assoc]
  · intro ageMsec dist
    unfold inEffectiveWindow
    simp

/-! ### POD serialization -/

/-- Recombining disjoint bit ranges: ORing a multiple of `2 ^ k` with a
value below `2 ^ k` is plain addition. -/
theorem lor_mul_pow_add (k : Nat) :
    ∀ x y, y < 2 ^ k → x * 2 ^ k ||| y = x * 2 ^ k + y := by
  induction k with
  | zero =>
    intro x y hy
    have h0 : y = 0 := by simpa using hy
    subst h0
    simp
  | succ k ih =>
    intro x y hy
    have hx2 : x * 2 ^ (k + 1) = x * 2 ^ k * 2 := by
      rw [pow_succ, Nat.mul_assoc]
    have hmodL : x * 2 ^ k * 2 % 2 = 0 := Nat.mul_mod_left _ 2
    have hor2 : (x * 2 ^ k * 2 ||| y) % 2 = y % 2 := by
      have hiff := Nat.or_mod_two_eq_one (a := x * 2 ^ k * 2) (b := y)
      rcases Nat.mod_two_eq_zero_or_one y with h | h
      · have hne : ¬ (x * 2 ^ k * 2 ||| y) % 2 = 1 := fun hcon => by
          rcases hiff.mp hcon with h1 | h1 <;> omega
        omega
      · have := hiff.mpr (Or.inr h)
        omega
    have hdiv : (x * 2 ^ k * 2 ||| y) / 2 = x * 2 ^ k ||| y / 2 := by
      rw [Nat.or_div_two, Nat.mul_div_cancel _ (by norm_num)]
    have hy2 : y / 2 < 2 ^ k := by
      rw [pow_succ] at hy
      omega
    have hih := ih (x * 2 ^ k / 2 ^ k) (y / 2) hy2
    rw [Nat.mul_div_cancel _ (Nat.pos_pow_of_pos k (by norm_num))] at hih
    have hsplit := Nat.div_add_mod (x * 2 ^ k * 2 ||| y) 2
    rw [hdiv, hih, hor2] at hsplit
    rw [hx2]
    omega

/-- U16 round trip. -/
theorem readWriteU16 (v : Nat) (hv : v < 2 ^ 16) :
    ReadU16_LE (WriteU16_LE v) = v := by
  show ((v >>> 8) % 256) <<< 8 ||| v % 256 = v
  simp only [Nat.shiftLeft_eq, Nat.shiftRight_eq_div_pow]
  have h := lor_mul_pow_add 8 (v / 2 ^ 8 % 256) (v % 256) (by norm_num; omega)
  norm_num at h hv ⊢
  omega

/-- U16 byte layout. -/
theorem writeU16_bytes (v : Nat) :
    ∀ i < 2, (WriteU16_LE v).getD i 0 = (v >>> (8 * i)) % 256 := by
  intro i hi
  interval_cases i <;> simp [WriteU16_LE]

/-- U24 round trip. -/
theorem readWriteU24 (v : Nat) (hv : v < 2 ^ 24) :
    ReadU24_LE (WriteU24_LE v) = v := by
  show ((v >>> 16) % 256) <<< 16 |||
    (((v % 65536) >>> 8) % 256) <<< 8 ||| (v % 65536) % 256 = v
  rw [Nat.or_assoc]
  simp only [Nat.shiftLeft_eq, Nat.shiftRight_eq_div_pow]
  have h1 := lor_mul_pow_add 8 (v % 65536 / 2 ^ 8 % 256) (v % 65536 % 256)
    (by norm_num; omega)
  rw [h1]
  have h2 := lor_mul_pow_add 16 (v / 2 ^ 16 % 256)
    (v % 65536 / 2 ^ 8 % 256 * 2 ^ 8 + v % 65536 % 256) (by norm_num; omega)
  rw [h2]
  norm_num at hv ⊢
  omega

/-- U24 byte layout. -/
theorem writeU24_bytes (v : Nat) :
    ∀ i < 3, (WriteU24_LE v).getD i 0 = (v >>> (8 * i)) % 256 := by
  intro i hi
  interval_cases i <;>
    simp only [WriteU24_LE, WriteU16_LE, List.cons_append, List.nil_append,
      List.getD_cons_zero, List.getD_cons_succ, Nat.shiftRight_eq_div_pow]
  all_goals norm_num
  all_goals omega

/-- U32 round trip. -/
theorem readWriteU32 (v : Nat) (hv : v < 2 ^ 32) :
    ReadU32_LE (WriteU32_LE v) = v := by
  show ((v >>> 24) % 256) <<< 24 ||| ((v >>> 16) % 256) <<< 16 |||
    ((v >>> 8) % 256) <<< 8 ||| v % 256 = v
  rw [Nat.or_assoc, Nat.or_assoc]
  simp only [Nat.shiftLeft_eq, Nat.shiftRight_eq_div_pow]
  rw [lor_mul_pow_add 8 (v / 2 ^ 8 % 256) (v % 256) (by norm_num; omega)]
  rw [lor_mul_pow_add 16 (v / 2 ^ 16 % 256) _ (by norm_num; omega)]
  rw [lor_mul_pow_add 24 (v / 2 ^ 24 % 256) _ (by norm_num; omega)]
  norm_num at hv ⊢
  omega

/-- U32 byte layout. -/
theorem writeU32_bytes (v : Nat) :
    ∀ i < 4, (WriteU32_LE v).getD i 0 = (v >>> (8 * i)) % 256 := by
  intro i hi
  interval_cases i <;> simp [WriteU32_LE]

/-- U64 round trip. -/
theorem readWriteU64 (v : Nat) (hv : v < 2 ^ 64) :
    ReadU64_LE (WriteU64_LE v) = v := by
  show ((v >>> 56) % 256) <<< 56 ||| ((v >>> 48) % 256) <<< 48 |||
    ((v >>> 40) % 256) <<< 40 ||| ((v >>> 32) % 256) <<< 32 |||
    ((v >>> 24) % 256) <<< 24 ||| ((v >>> 16) % 256) <<< 16 |||
    ((v >>> 8) % 256) <<< 8 ||| v % 256 = v
  rw [Nat.or_assoc, Nat.or_assoc, Nat.or_assoc, Nat.or_assoc, Nat.or_assoc,
    Nat.or_assoc]
  simp only [Nat.shiftLeft_eq, Nat.shiftRight_eq_div_pow]
  rw [lor_mul_pow_add 8 (v / 2 ^ 8 % 256) (v % 256) (by norm_num; omega)]
  rw [lor_mul_pow_add 16 (v / 2 ^ 16 % 256) _ (by norm_num; omega)]
  rw [lor_mul_pow_add 24 (v / 2 ^ 24 % 256) _ (by norm_num; omega)]
  rw [lor_mul_pow_add 32 (v / 2 ^ 32 % 256) _ (by norm_num; omega)]
  rw [lor_mul_pow_add 40 (v / 2 ^ 40 % 256) _ (by norm_num; omega)]
  rw [lor_mul_pow_add 48 (v / 2 ^ 48 % 256) _ (by norm_num; omega)]
  rw [lor_mul_pow_add 56 (v / 2 ^ 56 % 256) _ (by norm_num; omega)]
  norm_num at hv ⊢
  omega

/-- U64 byte layout. -/
theorem writeU64_bytes (v : Nat) :
    ∀ i < 8, (WriteU64_LE v).getD i 0 = (v >>> (8 * i)) % 256 := by
  intro i hi
  interval_cases i <;> simp [WriteU64_LE]

/-- C7: for every width in {16, 24, 32, 64}, the write routine stores the
value least-significant byte first (byte `i` is `(v >>> 8i) % 256`), and
the matching read routine recovers the value exactly. -/
theorem wire_little_endian :
    (∀ v < 2 ^ 16, (∀ i < 2, (WriteU16_LE v).getD i 0 = (v >>> (8 * i)) % 256) ∧
      ReadU16_LE (WriteU16_LE v) = v) ∧
    (∀ v < 2 ^ 24, (∀ i < 3, (WriteU24_LE v).getD i 0 = (v >>> (8 * i)) % 256) ∧
      ReadU24_LE (WriteU24_LE v) = v) ∧
    (∀ v < 2 ^ 32, (∀ i < 4, (WriteU32_LE v).getD i 0 = (v >>> (8 * i)) % 256) ∧
      ReadU32_LE (WriteU32_LE v) = v) ∧
    ∀ v < 2 ^ 64, (∀ i < 8, (WriteU64_LE v).getD i 0 = (v >>> (8 * i)) % 256) ∧
      ReadU64_LE (WriteU64_LE v) = v :=
  ⟨fun v hv => ⟨writeU16_bytes v, readWriteU16 v hv⟩,
    fun v hv => ⟨writeU24_bytes v, readWriteU24 v hv⟩,
    fun v hv => ⟨writeU32_bytes v, readWriteU32 v hv⟩,
    fun v hv => ⟨writeU64_bytes v, readWriteU64 v hv⟩⟩

/-- Witness for C7 at one concrete value per width. -/
theorem wire_little_endian_witness :
    ReadU16_LE (WriteU16_LE 4660) = 4660 ∧
      ReadU24_LE (WriteU24_LE 7767885) = 7767885 ∧
      ReadU32_LE (WriteU32_LE 305419896) = 305419896 ∧
      ReadU64_LE (WriteU64_LE 81985529216486895) = 81985529216486895 :=
  ⟨(wire_little_endian.1 4660 (by norm_num)).2,
    (wire_little_endian.2.1 7767885 (by norm_num)).2,
    (wire_little_endian.2.2.1 305419896 (by norm_num)).2,
    (wire_little_endian.2.2.2 81985529216486895 (by norm_num)).2⟩

/-! ### Decoder deduplication -/

/-- Advancing the window never decreases the highest sequence observed. -/
theorem advanceWindow_maxSeen (s : DecoderState) (seq : Nat) :
    (advanceWindow s seq).maxSeen = if s.maxSeen < seq then seq else s.maxSeen := by
  unfold advanceWindow
  split <;> simp_all

/-- A finished sequence stays finished across a window advance. -/
theorem slotDone_advanceWindow (s : DecoderState) (seq q : Nat)
    (h : slotDone s q) : slotDone (advanceWindow s seq) q := by
  unfold advanceWindow
  by_cases hms : s.maxSeen < seq
  · rw [if_pos hms]
    rcases h with h | h | h
    · by_cases hev : q + kDecoderWindowSize ≤ seq
      · exact Or.inr (Or.inr hev)
      · refine Or.inl ?_
        simp only [hev, if_false]
        rw [if_neg (by simp [h])]
        exact h
    · by_cases hev : q + kDecoderWindowSize ≤ seq
      · exact Or.inr (Or.inr hev)
      · refine Or.inr (Or.inl ?_)
        simp only [hev, if_false]
        rw [if_neg (by simp [h])]
        exact h
    · refine Or.inr (Or.inr ?_)
      show q + kDecoderWindowSize ≤ seq
      omega
  · rw [if_neg hms]
    exact h

/-- `acceptOriginal` preserves finished sequences and never delivers
them. -/
theorem acceptOriginal_done (s : DecoderState) (seq q : Nat)
    (h : slotDone s q) :
    slotDone (acceptOriginal s seq).1 q ∧ (acceptOriginal s seq).2 ≠ some q := by
  unfold acceptOriginal
  by_cases hw : seq + kDecoderWindowSize ≤ s.maxSeen
  · rw [if_pos hw]
    exact ⟨h, by simp⟩
  · rw [if_neg hw]
    have h1 : slotDone (advanceWindow s seq) q := slotDone_advanceWindow s seq q h
    by_cases hacc : (advanceWindow s seq).slots seq = SlotState.empty ∨
        (advanceWindow s seq).slots seq = SlotState.missing
    · rw [if_pos hacc]
      have hqs : q ≠ seq := by
        intro hqe
        subst hqe
        rcases h1 with h1 | h1 | h1
        · rcases hacc with hacc | hacc <;> simp [h1] at hacc
        · rcases hacc with hacc | hacc <;> simp [h1] at hacc
        · rw [advanceWindow_maxSeen] at h1
          have hD : kDecoderWindowSize = 384 := rfl
          by_cases hms : s.maxSeen < q <;> simp [hms] at h1 <;> omega
      refine ⟨?_, by simp [Ne.symm hqs]⟩
      rcases h1 with h1 | h1 | h1
      · exact Or.inl (by simp [hqs, h1])
      · exact Or.inr (Or.inl (by simp [hqs, h1]))
      · exact Or.inr (Or.inr h1)
    · rw [if_neg hacc]
      exact ⟨h1, by simp⟩

/-- When `acceptOriginal` delivers a sequence, that sequence is finished in
the resulting state. -/
theorem acceptOriginal_sets (s : DecoderState) (seq q : Nat)
    (h : (acceptOriginal s seq).2 = some q) :
    slotDone (acceptOriginal s seq).1 q := by
  unfold acceptOriginal at h ⊢
  by_cases hw : seq + kDecoderWindowSize ≤ s.maxSeen
  · rw [if_pos hw] at h
    simp at h
  · rw [if_neg hw] at h ⊢
    by_cases hacc : (advanceWindow s seq).slots seq = SlotState.empty ∨
        (advanceWindow s seq).slots seq = SlotState.missing
    · rw [if_pos hacc] at h ⊢
      simp at h
      subst h
      exact Or.inl (by simp)
    · rw [if_neg hacc] at h
      simp at h

/-- `solveRecover` preserves finished sequences and never delivers them. -/
theorem solveRecover_done (s : DecoderState) (seq q : Nat)
    (h : slotDone s q) :
    slotDone (solveRecover s seq).1 q ∧ (solveRecover s seq).2 ≠ some q := by
  unfold solveRecover
  by_cases hw : seq + kDecoderWindowSize ≤ s.maxSeen
  · rw [if_pos hw]
    exact ⟨h, by simp⟩
  · rw [if_neg hw]
    by_cases hmiss : s.slots seq = SlotState.missing
    · rw [if_pos hmiss]
      have hqs : q ≠ seq := by
        intro hqe
        subst hqe
        rcases h with h | h | h
        · rw [h] at hmiss; cases hmiss
        · rw [h] at hmiss; cases hmiss
        · exact hw h
      refine ⟨?_, by simp [Ne.symm hqs]⟩
      rcases h with h | h | h
      · exact Or.inl (by simp [hqs, h])
      · exact Or.inr (Or.inl (by simp [hqs, h]))
      · exact Or.inr (Or.inr h)
    · rw [if_neg hmiss]
      exact ⟨h, by simp⟩

/-- When `solveRecover` delivers a sequence, that sequence is finished in
the resulting state. -/
theorem solveRecover_sets (s : DecoderState) (seq q : Nat)
    (h : (solveRecover s seq).2 = some q) :
    slotDone (solveRecover s seq).1 q := by
  unfold solveRecover at h ⊢
  by_cases hw : seq + kDecoderWindowSize ≤ s.maxSeen
  · rw [if_pos hw] at h
    simp at h
  · rw [if_neg hw] at h ⊢
    by_cases hmiss : s.slots seq = SlotState.missing
    · rw [if_pos hmiss] at h ⊢
      simp at h
      subst h
      exact Or.inr (Or.inl (by simp))
    · rw [if_neg hmiss] at h
      simp at h

/-- One decoder step preserves finished sequences and never delivers
them. -/
theorem decoderStep_done (s : DecoderState) (e : DecoderEvent) (q : Nat)
    (h : slotDone s q) :
    slotDone (decoderStep s e).1 q ∧
      ∀ d, (decoderStep s e).2 = some d → deliverySeq d ≠ q := by
  cases e with
  | original seq =>
    obtain ⟨h1, h2⟩ := acceptOriginal_done s seq q h
    refine ⟨h1, fun d hd hdq => ?_⟩
    simp only [decoderStep] at hd
    rcases ho : (acceptOriginal s seq).2 with _ | q0
    · rw [ho] at hd; cases hd
    · rw [ho] at hd
      simp at hd
      subst hd
      simp only [deliverySeq] at hdq
      exact h2 (by rw [ho, hdq])
  | solved seq =>
    obtain ⟨h1, h2⟩ := solveRecover_done s seq q h
    refine ⟨h1, fun d hd hdq => ?_⟩
    simp only [decoderStep] at hd
    rcases ho : (solveRecover s seq).2 with _ | q0
    · rw [ho] at hd; cases hd
    · rw [ho] at hd
      simp at hd
      subst hd
      simp only [deliverySeq] at hdq
      exact h2 (by rw [ho, hdq])

/-- When one decoder step delivers a sequence, that sequence is finished
afterwards. -/
theorem decoderStep_sets (s : DecoderState) (e : DecoderEvent) (d : Delivery)
    (hd : (decoderStep s e).2 = some d) :
    slotDone (decoderStep s e).1 (deliverySeq d) := by
  cases e with
  | original seq =>
    simp only [decoderStep] at hd ⊢
    rcases ho : (acceptOriginal s seq).2 with _ | q0
    · rw [ho] at hd; cases hd
    · rw [ho] at hd
      simp at hd
      subst hd
      simpa [deliverySeq] using acceptOriginal_sets s seq q0 ho
  | solved seq =>
    simp only [decoderStep] at hd ⊢
    rcases ho : (solveRecover s seq).2 with _ | q0
    · rw [ho] at hd; cases hd
    · rw [ho] at hd
      simp at hd
      subst hd
      simpa [deliverySeq] using solveRecover_sets s seq q0 ho

/-- Delivery counts add over concatenation. -/
theorem deliveredCount_append (l1 l2 : List Delivery) (q : Nat) :
    deliveredCount (l1 ++ l2) q = deliveredCount l1 q + deliveredCount l2 q := by
  simp [deliveredCount, List.filter_append]

/-- The run-level invariant: a finished sequence is never delivered again,
and any sequence is delivered at most once. -/
theorem decoderRun_count (evs : List DecoderEvent) :
    ∀ (s : DecoderState) (q : Nat),
      (slotDone s q → deliveredCount (decoderRun s evs).2 q = 0) ∧
        deliveredCount (decoderRun s evs).2 q ≤ 1 := by
  induction evs with
  | nil =>
    intro s q
    exact ⟨fun _ => rfl, by simp [decoderRun, deliveredCount]⟩
  | cons e rest ih =>
    intro s q
    have hrun : (decoderRun s (e :: rest)).2 =
        (decoderStep s e).2.toList ++ (decoderRun (decoderStep s e).1 rest).2 := rfl
    rw [hrun, deliveredCount_append]
    by_cases hd : slotDone s q
    · obtain ⟨h1, h2⟩ := decoderStep_done s e q hd
      have hhead : deliveredCount (decoderStep s e).2.toList q = 0 := by
        rcases ho : (decoderStep s e).2 with _ | d
        · simp [deliveredCount]
        · have := h2 d ho
          simp [deliveredCount, this]
      have htail := (ih (decoderStep s e).1 q).1 h1
      constructor
      · intro _
        omega
      · omega
    · refine ⟨fun hcon => absurd hcon hd, ?_⟩
      rcases ho : (decoderStep s e).2 with _ | d
      · simpa [deliveredCount] using (ih (decoderStep s e).1 q).2
      · by_cases hq : deliverySeq d = q
        · have hdone : slotDone (decoderStep s e).1 q := by
            rw [← hq]
            exact decoderStep_sets s e d ho
          have htail := (ih (decoderStep s e).1 q).1 hdone
          have hhead : deliveredCount (some d).toList q ≤ 1 := by
            by_cases hc : deliverySeq d = q <;> simp [deliveredCount, hc]
          omega
        · have hhead : deliveredCount (some d).toList q = 0 := by
            simp [deliveredCount, hq]
          have htail := (ih (decoderStep s e).1 q).2
          omega

/-- C3: over a decoder lifetime starting from the fresh state, each
sequence is delivered at most once, counting both accepted originals and
OnRecovered callback invocations. -/
theorem no_duplicate_delivery (evs : List DecoderEvent) (q : Nat) :
    deliveredCount (decoderRun freshDecoder evs).2 q ≤ 1 :=
  (decoderRun_count evs freshDecoder q).2

/-! ### Recoverability: Cauchy-derived systems have full rank -/

/-- Any vector in the kernel of the Cauchy-derived coefficient matrix is
zero.  The proof follows the classical argument: if the combination
vanishes at L distinct points, the associated polynomial of degree below L
has L roots and is identically zero, and evaluating it at each `-(y m)`
forces every coefficient to vanish. -/
theorem cauchy_mulVec_zero {F : Type _} [Field F] {L : Nat} (x y : Fin L → F)
    (hx : Function.Injective x) (hy : Function.Injective y)
    (hxy : ∀ i j, x i + y j ≠ 0) (hy0 : ∀ j, y j ≠ 0)
    (c : Fin L → F) (hc : (cauchyMatrix x y).mulVec c = 0) : c = 0 := by
  rcases Nat.eq_zero_or_pos L with hL | hL
  · funext m
    exact absurd m.2 (by omega)
  set P : Polynomial F := ∑ j : Fin L, Polynomial.C (y j * c j) *
    ∏ k in Finset.univ.erase j, (Polynomial.X + Polynomial.C (y k)) with hP
  have heval : ∀ i, P.eval (x i) = 0 := by
    intro i
    have hrow : ∑ j, cauchyMatrix x y i j * c j = 0 := by
      have := congrFun hc i
      simpa [Matrix.mulVec, Matrix.dotProduct] using this
    have hterm : ∀ j : Fin L, y j * c j * ∏ k in Finset.univ.erase j, (x i + y k) =
        (∏ k, (x i + y k)) * (cauchyMatrix x y i j * c j) := by
      intro j
      rw [← Finset.mul_prod_erase Finset.univ (fun k => x i + y k) (Finset.mem_univ j)]
      have hM : cauchyMatrix x y i j = y j / (x i + y j) := rfl
      rw [hM, div_eq_mul_inv]
      set Q := ∏ k in Finset.univ.erase j, (x i + y k) with hQ
      have hgroup : (x i + y j) * Q * (y j * (x i + y j)⁻¹ * c j) =
          ((x i + y j) * (x i + y j)⁻¹) * (y j * c j * Q) := by
        ring
      rw [hgroup, mul_inv_cancel₀ (hxy i j), one_mul]
    have hexpand : P.eval (x i) =
        ∑ j : Fin L, y j * c j * ∏ k in Finset.univ.erase j, (x i + y k) := by
      rw [hP]
      simp [Polynomial.eval_finset_sum, Polynomial.eval_prod]
    rw [hexpand]
    calc ∑ j : Fin L, y j * c j * ∏ k in Finset.univ.erase j, (x i + y k)
        = ∑ j : Fin L, (∏ k, (x i + y k)) * (cauchyMatrix x y i j * c j) :=
          Finset.sum_congr rfl fun j _ => hterm j
      _ = (∏ k, (x i + y k)) * ∑ j, cauchyMatrix x y i j * c j := by
          rw [Finset.mul_sum]
      _ = 0 := by rw [hrow, mul_zero]
  have hdeg : P.natDegree < L := by
    have hle : P.natDegree ≤ L - 1 := by
      rw [hP]
      apply Polynomial.natDegree_sum_le_of_forall_le
      intro j _
      calc (Polynomial.C (y j * c j) * ∏ k in Finset.univ.erase j,
              (Polynomial.X + Polynomial.C (y k))).natDegree
          ≤ (Polynomial.C (y j * c j)).natDegree +
              (∏ k in Finset.univ.erase j, (Polynomial.X + Polynomial.C (y k))).natDegree :=
            Polynomial.natDegree_mul_le
        _ ≤ L - 1 := by
            rw [Polynomial.natDegree_C, Polynomial.natDegree_prod_of_monic _ _
              (fun k _ => Polynomial.monic_X_add_C (y k))]
            simp [Polynomial.natDegree_X_add_C, Finset.card_erase_of_mem]
    omega
  have hP0 : P = 0 := by
    apply Polynomial.eq_zero_of_natDegree_lt_card_of_eval_eq_zero P hx heval
    simpa using hdeg
  funext m
  have hev : P.eval (-(y m)) = 0 := by rw [hP0]; simp
  have hexpand : P.eval (-(y m)) =
      ∑ j : Fin L, y j * c j * ∏ k in Finset.univ.erase j, (-(y m) + y k) := by
    rw [hP]
    simp [Polynomial.eval_finset_sum, Polynomial.eval_prod]
  have hsingle : ∑ j : Fin L, y j * c j * ∏ k in Finset.univ.erase j, (-(y m) + y k) =
      y m * c m * ∏ k in Finset.univ.erase m, (-(y m) + y k) := by
    apply Finset.sum_eq_single m
    · intro j _ hjm
      have hmem : m ∈ Finset.univ.erase j :=
        Finset.mem_erase.mpr ⟨Ne.symm hjm, Finset.mem_univ m⟩
      rw [Finset.prod_eq_zero hmem (by ring), mul_zero]
    · intro hcon
      exact absurd (Finset.mem_univ m) hcon
  have hprod : ∏ k in Finset.univ.erase m, (-(y m) + y k) ≠ 0 := by
    rw [Finset.prod_ne_zero_iff]
    intro k hk hzero
    have hkm : y k = y m := by linear_combination hzero
    exact (Finset.mem_erase.mp hk).1 (hy hkm)
  have hdm : y m * c m = 0 := by
    have h0 : y m * c m * ∏ k in Finset.univ.erase m, (-(y m) + y k) = 0 := by
      rw [← hsingle, ← hexpand, hev]
    rcases mul_eq_zero.mp h0 with h | h
    · exact h
    · exact absurd h hprod
  rcases mul_eq_zero.mp hdm with h | h
  · exact absurd h (hy0 m)
  · exact h

/-- C4: for distinct recovery rows `x` and distinct covered columns `y`
subject to the Cauchy condition of the source formula (all denominators
`x i + y j` nonzero, all numerators `y j` nonzero, as holds for
`GetMatrixElement` with rows below 64 and columns plus 64 below 256), the
L-by-L coefficient matrix is invertible (nonzero determinant), and hence
the linear system a solver faces determines the L missing originals
uniquely: any two solutions agree, so Gaussian elimination recovers all
of them. -/
theorem cauchy_recoverability {F : Type _} [Field F] {L : Nat} (x y : Fin L → F)
    (hx : Function.Injective x) (hy : Function.Injective y)
    (hxy : ∀ i j, x i + y j ≠ 0) (hy0 : ∀ j, y j ≠ 0) :
    (cauchyMatrix x y).det ≠ 0 ∧
      ∀ t u : Fin L → F,
        (cauchyMatrix x y).mulVec t = (cauchyMatrix x y).mulVec u → t = u := by
  have hker := cauchy_mulVec_zero x y hx hy hxy hy0
  constructor
  · intro hdet
    obtain ⟨v, hv0, hv⟩ := Matrix.exists_mulVec_eq_zero_iff.mpr hdet
    exact hv0 (hker v hv)
  · intro t u htu
    have hsub : (cauchyMatrix x y).mulVec (t - u) = 0 := by
      rw [Matrix.mulVec_sub, htu, sub_self]
    exact sub_eq_zero.mp (hker (t - u) hsub)

/-- Witness for C4 over the two-element field at L = 1. -/
theorem cauchy_recoverability_witness :
    (cauchyMatrix (F := ZMod 2) ![0] ![1]).det ≠ 0 :=
  (cauchy_recoverability (F := ZMod 2) ![0] ![1]
    (by decide) (by decide) (by decide) (by decide)).1

end CCat
